import Mathlib

/-!
Verification of the Bookkeeping statement pipeline.

The Python sources operate on the plain-text rendering of a bank statement.
We embed the text as a list of characters and each regular expression of the
source as an explicit matching function with the same backtracking behaviour
(lazy groups scan split points left to right, greedy character classes take
maximal runs).  Monetary amounts always carry exactly two decimal digits in
every line grammar, so they are embedded exactly as integer cents; `abs`,
negation and comparisons on them coincide with the Python float operations on
such values.  A Python dictionary field that a parser does not set is embedded
as the empty string, matching the `txn.get('type', '')` reads in the analysis
code.  A Python run that raises (`datetime.strptime` on an invalid date)
is embedded as `none`.
-/

set_option maxRecDepth 8000

abbrev Chars := List Char

/-- Python `\s` over the ASCII range (space, tab, newline, return, vtab, formfeed). -/
def isWs (c : Char) : Bool :=
  c = ' ' || c = '\t' || c = '\n' || c = '\r' || c = '\x0b' || c = '\x0c'

def isDigitCh (c : Char) : Bool := '0' ≤ c && c ≤ '9'

def isUpperCh (c : Char) : Bool := 'A' ≤ c && c ≤ 'Z'

def isLowerCh (c : Char) : Bool := 'a' ≤ c && c ≤ 'z'

def isAlphaCh (c : Char) : Bool := isUpperCh c || isLowerCh c

/-- Python `\w` over the ASCII range. -/
def isWordCh (c : Char) : Bool := isAlphaCh c || isDigitCh c || c = '_'

def toUpperCh (c : Char) : Char := if isLowerCh c then Char.ofNat (c.toNat - 32) else c

def toLowerCh (c : Char) : Char := if isUpperCh c then Char.ofNat (c.toNat + 32) else c

/-- Python `str.upper()` (ASCII fragment). -/
def upperStr (s : Chars) : Chars := s.map toUpperCh

/-- Python `str.lower()` (ASCII fragment). -/
def lowerStr (s : Chars) : Chars := s.map toLowerCh

/-- Consume a literal from the front of `s`; `none` when `s` does not start with it. -/
def dropLit : Chars → Chars → Option Chars
  | [], s => some s
  | _, [] => none
  | p :: ps, c :: cs => if c = p then dropLit ps cs else none

def startsWithL (pat s : Chars) : Bool := (dropLit pat s).isSome

/-- Index of the first occurrence of `pat` in `s` (Python `str.find` when some). -/
def findLit (pat : Chars) : Chars → Option Nat
  | [] => if startsWithL pat [] then some 0 else none
  | c :: cs => if startsWithL pat (c :: cs) then some 0 else (findLit pat cs).map (· + 1)

/-- Python `pat in s` substring test. -/
def containsSub (s pat : Chars) : Bool := (findLit pat s).isSome

def endsWithL (pat s : Chars) : Bool := startsWithL pat.reverse s.reverse

/-- Python `str.strip()` (ASCII whitespace fragment). -/
def stripL (s : Chars) : Chars :=
  ((s.dropWhile (isWs ·)).reverse.dropWhile (isWs ·)).reverse

/-- Python `str.split()` with no argument: split on whitespace runs, dropping empties. -/
def splitWsAux : Chars → Chars → List Chars
  | [], cur => if cur = [] then [] else [cur.reverse]
  | c :: cs, cur =>
    if isWs c then (if cur = [] then splitWsAux cs [] else cur.reverse :: splitWsAux cs [])
    else splitWsAux cs (c :: cur)

def splitWs (s : Chars) : List Chars := splitWsAux s []

/-- Line-boundary characters of Python `str.splitlines`. -/
def isLineBr (c : Char) : Bool :=
  c = '\n' || c = '\r' || c = '\x0b' || c = '\x0c' || c = '\x1c' || c = '\x1d' ||
  c = '\x1e' || c = '\x85' || c = '\u2028' || c = '\u2029'

def splitlinesAux : Chars → Chars → List Chars
  | [], cur => if cur = [] then [] else [cur.reverse]
  | '\r' :: '\n' :: cs, cur => cur.reverse :: splitlinesAux cs []
  | c :: cs, cur =>
    if isLineBr c then cur.reverse :: splitlinesAux cs [] else splitlinesAux cs (c :: cur)

/-- Python `str.splitlines`. -/
def splitlines (s : Chars) : List Chars := splitlinesAux s []

def digitVal (c : Char) : Nat := c.toNat - 48

def digitsVal (l : Chars) : Nat := l.foldl (fun n c => n * 10 + digitVal c) 0

/-- Decimal rendering of a natural number, as Python `str(n)`. -/
def natChars (n : Nat) : Chars := Nat.toDigits 10 n

/-- Leftmost match of a matcher, as `re.search`/the first step of `re.finditer`:
try the matcher at every position from the left, return its captures and the
text that remains after the match. -/
def scan1 {α} (m : Chars → Option (α × Chars)) : Chars → Option (α × Chars)
  | [] => m []
  | c :: cs =>
    match m (c :: cs) with
    | some r => some r
    | none => scan1 m cs

/-- `re.finditer`: repeated leftmost matching, resuming after each match.
Every matcher used below consumes at least one character on success, so the
number of matches is bounded by the length of the text and the fuel below
never runs out. -/
def finditerAux {α} (m : Chars → Option (α × Chars)) : Nat → Chars → List α
  | 0, _ => []
  | fuel + 1, s =>
    match scan1 m s with
    | none => []
    | some (a, rest) => a :: finditerAux m fuel rest

def finditer {α} (m : Chars → Option (α × Chars)) (s : Chars) : List α :=
  finditerAux m (s.length + 1) s

/-- Earliest occurrence among several stop literals: position and literal length.
On a position tie the earlier alternative of the regex alternation wins, which
the fold below reproduces by keeping the earlier-listed stop. -/
def findNearestStop (stops : List Chars) (s : Chars) : Option (Nat × Nat) :=
  stops.foldl
    (fun best stop =>
      match findLit stop s, best with
      | none, b => b
      | some i, none => some (i, stop.length)
      | some i, some (bi, bl) => if i < bi then some (i, stop.length) else some (bi, bl))
    none

/-! ## Dates

`datetime.strptime` validates the calendar date it parses and raises on an
invalid one; the embeddings below return `none` in exactly those cases. -/

def monthAbbrevs : List Chars :=
  ["jan".toList, "feb".toList, "mar".toList, "apr".toList, "may".toList, "jun".toList,
   "jul".toList, "aug".toList, "sep".toList, "oct".toList, "nov".toList, "dec".toList]

/-- Month number of a three-letter abbreviation; `%b` matching is case-insensitive. -/
def monthNum (m : Chars) : Option Nat :=
  match (monthAbbrevs.zip (List.range 12)).find? (fun p => p.1 = lowerStr m) with
  | some (_, i) => some (i + 1)
  | none => none

def isLeap (y : Nat) : Bool := (y % 4 = 0 && y % 100 ≠ 0) || y % 400 = 0

def daysInMonth (y m : Nat) : Nat :=
  if m = 2 then (if isLeap y then 29 else 28)
  else if m = 4 || m = 6 || m = 9 || m = 11 then 30
  else 31

/-- The dates `datetime(y, m, d)` accepts (`MINYEAR = 1`, `MAXYEAR = 9999`). -/
def validYMD (y m d : Nat) : Bool :=
  1 ≤ y && y ≤ 9999 && 1 ≤ m && m ≤ 12 && 1 ≤ d && d ≤ daysInMonth y m

/-- Total order key of a calendar date: chronological on valid dates. -/
def encodeYMD (y m d : Nat) : Nat := y * 10000 + m * 100 + d

/-- One-or-two digit field (`%d`, `%m`): greedy two digits, retrying one. -/
def parseDay12 (s : Chars) (k : Nat → Chars → Option Nat) : Option Nat :=
  match s with
  | d1 :: d2 :: r =>
    if isDigitCh d1 then
      if isDigitCh d2 then
        match k (digitVal d1 * 10 + digitVal d2) r with
        | some v => some v
        | none => k (digitVal d1) (d2 :: r)
      else k (digitVal d1) (d2 :: r)
    else none
  | [d1] => if isDigitCh d1 then k (digitVal d1) [] else none
  | [] => none

/-- `datetime.strptime(s, '%b %d, %Y')` as a sort key; `none` when it raises.
A space in the format matches one or more whitespace characters. -/
def strptimeBDY (s : Chars) : Option Nat :=
  match s with
  | a :: b :: c :: rest =>
    match monthNum [a, b, c] with
    | none => none
    | some m =>
      match rest with
      | w :: r1 =>
        if isWs w then
          parseDay12 (r1.dropWhile isWs) (fun d r2 =>
            match r2 with
            | ',' :: w2 :: r3 =>
              if isWs w2 then
                match (r3.dropWhile isWs) with
                | y1 :: y2 :: y3 :: y4 :: r4 =>
                  if [y1, y2, y3, y4].all isDigitCh ∧ r4 = [] then
                    let y := digitsVal [y1, y2, y3, y4]
                    if validYMD y m d then some (encodeYMD y m d) else none
                  else none
                | _ => none
              else none
            | _ => none)
        else none
      | [] => none
  | _ => none

/-- `datetime.strptime(s, '%m/%d/%Y')` as a sort key; `none` when it raises. -/
def strptimeMDY (s : Chars) : Option Nat :=
  parseDay12 s (fun m r1 =>
    match r1 with
    | '/' :: r2 =>
      parseDay12 r2 (fun d r3 =>
        match r3 with
        | '/' :: y1 :: y2 :: y3 :: y4 :: r4 =>
          if [y1, y2, y3, y4].all isDigitCh ∧ r4 = [] then
            let y := digitsVal [y1, y2, y3, y4]
            if validYMD y m d then some (encodeYMD y m d) else none
          else none
        | _ => none)
    | _ => none)

/-! ## Transactions -/

/-- One extracted transaction.  The Python parsers build dictionaries whose key
sets differ: the Comerica parser sets `type` and no `raw_line`, the other
parsers set `raw_line` and no `type`.  A missing key is embedded as the empty
string, which is what `txn.get('type', '')` yields downstream. -/
structure Txn where
  date : Chars
  amount : Int
  description : Chars
  typ : Chars
  rawLine : Chars
deriving DecidableEq

/-- Python `abs` on a float amount (exact on cents). -/
def pyAbs (a : Int) : Int := if a < 0 then -a else a

/-! ## Money tokens -/

/-- Greedy `(?:,\d{3})*`: collected group digits and the rest.  The run is
maximal; any shorter prefix of it is followed by a comma digit, never by the
`\.` the pattern requires next, so no backtracking can occur here. -/
def parseAmtGroups : Chars → Chars × Chars
  | ',' :: a :: b :: c :: rest =>
    if isDigitCh a && isDigitCh b && isDigitCh c then
      let (ds, r) := parseAmtGroups rest
      (a :: b :: c :: ds, r)
    else ([], ',' :: a :: b :: c :: rest)
  | s => ([], s)

/-- `\d{1,3}(?:,\d{3})*\.\d{2}` at the front of `s`: value in cents and rest.
When more than three digits precede the first non-digit every retry of the
greedy `\d{1,3}` leaves a digit where `,` or `.` is required, so the token is
rejected, matching the regex. -/
def parseMoneyCore (s : Chars) : Option (Nat × Chars) :=
  let run := s.takeWhile isDigitCh
  if run.length = 0 || 3 < run.length then none
  else
    let (gds, s3) := parseAmtGroups (s.drop run.length)
    match s3 with
    | '.' :: a :: b :: rest =>
      if isDigitCh a && isDigitCh b then
        some (digitsVal (run ++ gds) * 100 + digitVal a * 10 + digitVal b, rest)
      else none
    | _ => none

/-- `-?\d{1,3}(?:,\d{3})*\.\d{2}`: signed cents.  When the minus sign is
present but no money token follows it, the retry without the sign starts at
the minus character and fails as well. -/
def parseMoney13 (s : Chars) : Option (Int × Chars) :=
  match s with
  | '-' :: r => (parseMoneyCore r).map (fun p => (-(p.1 : Int), p.2))
  | _ => (parseMoneyCore s).map (fun p => ((p.1 : Int), p.2))

/-! ## Lazy description groups

Each line grammar has the shape `\s+(.*?)\s+<tail>`: one whitespace run, a
lazy description, another whitespace run, then a tail (money token or
reference words).  The regex engine tries the greedy leading `\s+` at its
maximal length first and then grows the lazy group one character at a time,
so the first tail position probed is the end of the leading run, then every
later position; positions inside the leading run are probed last and only
with an all-blank description.  `.` does not match a newline (the patterns
are compiled without `re.DOTALL`), so the description cannot grow past one.
The tail always starts with a non-blank character, hence the `\s+` before it
is forced to the maximal whitespace run ending at the probed position. -/

def wsRun (s : Chars) : Nat := (s.takeWhile isWs).length

def lazyAscAux {α} (tailm : Chars → Option α) : Chars → Chars → Option (Chars × α)
  | _, [] => none
  | descRev, c :: cs =>
    match (if isWs c then tailm (cs.dropWhile isWs) else none) with
    | some a => some (descRev.reverse, a)
    | none => if c = '\n' then none else lazyAscAux tailm (c :: descRev) cs

/-- `\s+(.*?)\s+<tail>`: description group (not yet stripped) and tail captures. -/
def lazyDescScan {α} (tailm : Chars → Option α) (r : Chars) : Option (Chars × α) :=
  let m := wsRun r
  if m = 0 then none
  else
    match lazyAscAux tailm [] (r.drop m) with
    | some (d, a) => some (d, a)
    | none =>
      if 2 ≤ m then
        match tailm (r.drop m) with
        | some a => some ([], a)
        | none => none
      else none

/-! ## Prosperity Bank parser

`src/parsers/prosperity_parser.py`; `src/extraction.py` contains a second,
textually identical copy of the section and line grammar in
`ProsperityBankParser` whose `extract_transactions` omits the final sort. -/

def litDepositsHdr : Chars := "DEPOSITS/OTHER CREDITS".toList
def litOtherDebits : Chars := "OTHER DEBITS".toList
def litChecksU : Chars := "CHECKS".toList
def litSvcChargeSummary : Chars := "SERVICE CHARGE SUMMARY".toList
def litPageBreak : Chars := "--- PAGE BREAK ---".toList
def litDate : Chars := "Date".toList
def litDescription : Chars := "Description".toList
def litAmount : Chars := "Amount".toList
def litStatementSummary : Chars := "STATEMENT SUMMARY".toList

/-- `HDR\s*Date\s*Description\s*Amount`: the column-header part of both
Prosperity section patterns.  Each literal starts with a non-blank character,
so the greedy `\s*` runs are forced maximal. -/
def sectionHeaderM (hdr : Chars) (s : Chars) : Option (Unit × Chars) :=
  (dropLit hdr s).bind fun r1 =>
  (dropLit litDate (r1.dropWhile isWs)).bind fun r2 =>
  (dropLit litDescription (r2.dropWhile isWs)).bind fun r3 =>
  (dropLit litAmount (r3.dropWhile isWs)).map fun r4 => ((), r4)

/-- All matches of `HDR\s*Date\s*Description\s*Amount(.*?)(?:STOP1|…|$)` with
`re.DOTALL`: the lazy capture runs to the nearest stop alternative (consumed,
scanning resumes behind it) or to the end of the text. -/
def prosSectionsAux (hdr : Chars) (stops : List Chars) : Nat → Chars → List Chars
  | 0, _ => []
  | fuel + 1, s =>
    match scan1 (sectionHeaderM hdr) s with
    | none => []
    | some (_, rest) =>
      match findNearestStop stops rest with
      | some (i, len) => rest.take i :: prosSectionsAux hdr stops fuel (rest.drop (i + len))
      | none => [rest]

def prosSections (hdr : Chars) (stops : List Chars) (s : Chars) : List Chars :=
  prosSectionsAux hdr stops (s.length + 1) s

def prosperityDepositStops : List Chars :=
  [litOtherDebits, litChecksU, litSvcChargeSummary, litPageBreak]

def prosperityDebitStops : List Chars :=
  [litDepositsHdr, litChecksU, litSvcChargeSummary, litPageBreak]

inductive SecKind
  | deposit
  | debit
deriving DecidableEq

/-- The `sections` list: every deposits capture then every debits capture,
each stripped and kept only when non-empty. -/
def prosperitySections (text : Chars) : List (SecKind × Chars) :=
  ((prosSections litDepositsHdr prosperityDepositStops text).filterMap fun sec =>
    let s := stripL sec
    if s = [] then none else some (SecKind.deposit, s))
  ++ ((prosSections litOtherDebits prosperityDebitStops text).filterMap fun sec =>
    let s := stripL sec
    if s = [] then none else some (SecKind.debit, s))

/-- Tail of the Prosperity line pattern: `\s+\$?(-?\d{1,3}(?:,\d{3})*\.\d{2})\s*$`
(whitespace already consumed).  A failing money token after the optional `\$`
would restart at the `$` character and fail again. -/
def prosTailM (s : Chars) : Option Int :=
  let s1 := match s with | '$' :: r => r | _ => s
  match parseMoney13 s1 with
  | some (v, rest) => if rest.all isWs then some v else none
  | none => none

/-- `re.match` of the Prosperity line pattern
`(\d{2}/\d{2}/\d{4})\s+(.*?)\s+\$?(-?\d{1,3}(?:,\d{3})*\.\d{2})\s*$`:
date string, stripped description, literal signed cents. -/
def prosLineParse (line : Chars) : Option (Chars × Chars × Int) :=
  match line with
  | a :: b :: '/' :: c :: d :: '/' :: y1 :: y2 :: y3 :: y4 :: rest =>
    if [a, b, c, d, y1, y2, y3, y4].all isDigitCh then
      match lazyDescScan prosTailM rest with
      | some (desc, v) => some ([a, b, '/', c, d, '/', y1, y2, y3, y4], stripL desc, v)
      | none => none
    else none
  | _ => none

/-- One Prosperity section line: parse, then force the sign from the section
kind (`-abs` in a debit section, `abs` otherwise). -/
def prosperityLineTxn (kind : SecKind) (line : Chars) : Option Txn :=
  match prosLineParse line with
  | none => none
  | some (dateStr, desc, v) =>
    let amt := match kind with
      | SecKind.debit => -(pyAbs v)
      | SecKind.deposit => pyAbs v
    some ⟨dateStr, amt, desc, [], line⟩

/-- Non-blank stripped lines of a section, as the Python list comprehension. -/
def sectionLines (sec : Chars) : List Chars :=
  ((splitlines sec).map stripL).filter (· ≠ [])

/-- All transactions of all sections, in section order (before any sort). -/
def prosperityTxnsRaw (text : Chars) : List Txn :=
  (prosperitySections text).flatMap fun ks =>
    (sectionLines ks.2).filterMap (prosperityLineTxn ks.1)

/-! ## Sorting by parsed date

`list.sort(key=lambda x: datetime.strptime(x['date'], fmt))` computes every
key before comparing and raises when one is invalid (embedded as `none`);
Python sort is stable, as is insertion sort with a `≤` key relation. -/

def keyD (f : Txn → Option Nat) (t : Txn) : Nat := (f t).getD 0

def dateLE (f : Txn → Option Nat) (a b : Txn) : Prop := keyD f a ≤ keyD f b

instance (f : Txn → Option Nat) : DecidableRel (dateLE f) :=
  fun a b => Nat.decLe (keyD f a) (keyD f b)

instance (f : Txn → Option Nat) : IsTotal Txn (dateLE f) :=
  ⟨fun a b => Nat.le_total (keyD f a) (keyD f b)⟩

instance (f : Txn → Option Nat) : IsTrans Txn (dateLE f) :=
  ⟨fun _ _ _ => Nat.le_trans⟩

def sortTxns (f : Txn → Option Nat) (l : List Txn) : Option (List Txn) :=
  if l.all (fun t => (f t).isSome) then some (List.insertionSort (dateLE f) l) else none

def prosperityMDYkey (t : Txn) : Option Nat := strptimeMDY t.date

/-- `ProsperityParser.extract_transactions` of `src/parsers/prosperity_parser.py`:
sections, lines, sign normalization, then sort by `%m/%d/%Y` date. -/
def ProsperityParser.extract_transactions (text : Chars) : Option (List Txn) :=
  if prosperitySections text = [] then some []
  else sortTxns prosperityMDYkey (prosperityTxnsRaw text)

/-- `ProsperityBankParser.extract_transactions` of `src/extraction.py`: the same
section and line grammar, without the final sort. -/
def ProsperityBankParser.extract_transactions (text : Chars) : List Txn :=
  prosperityTxnsRaw text

def ProsperityBankParser.detect_format (text : Chars) : Bool :=
  containsSub text litStatementSummary && containsSub text litDepositsHdr


/-! ## Chase parser (`src/extraction.py`) -/

def litAccountActivity : Chars := "ACCOUNT ACTIVITY".toList
def litDailyEndingBalance : Chars := "DAILY ENDING BALANCE".toList
def litAnnualPercentageYield : Chars := "ANNUAL PERCENTAGE YIELD".toList
def litCHASE : Chars := "CHASE".toList
def lit2024sl : Chars := "/2024".toList

def chaseStops : List Chars := [litDailyEndingBalance, litAnnualPercentageYield]

/-- `re.search(r"ACCOUNT ACTIVITY.*?(?:DAILY ENDING BALANCE|ANNUAL PERCENTAGE YIELD|$)",
re.DOTALL)`, `group(0)`: from the first header occurrence up to and including
the nearest stop alternative, or to the end of the text. -/
def chaseSectionOpt (text : Chars) : Option Chars :=
  match findLit litAccountActivity text with
  | none => none
  | some i =>
    let rest := text.drop (i + litAccountActivity.length)
    some (litAccountActivity ++
      match findNearestStop chaseStops rest with
      | some (j, len) => rest.take (j + len)
      | none => rest)

/-- Tail of the Chase/Wells Fargo line patterns:
`\s+(-?\$?\d{1,3}(?:,\d{3})*\.\d{2})` with no end anchor (whitespace already
consumed); the rest of the line is left unmatched.  The amount group keeps the
sign; `$` and `,` are removed before `float`. -/
def chaseTailM (s : Chars) : Option Int :=
  let p := match s with | '-' :: r => (true, r) | _ => (false, s)
  let s2 := match p.2 with | '$' :: r => r | _ => p.2
  (parseMoneyCore s2).map (fun q => if p.1 then -(q.1 : Int) else (q.1 : Int))

/-- `re.match` of `(\d{2}/\d{2})\s+(.*?)\s+(-?\$?\d{1,3}(?:,\d{3})*\.\d{2})`;
the literal `"/2024"` is appended to the month/day token. -/
def chaseLineTxn (line : Chars) : Option Txn :=
  match line with
  | a :: b :: '/' :: c :: d :: rest =>
    if [a, b, c, d].all isDigitCh then
      match lazyDescScan chaseTailM rest with
      | some (desc, v) => some ⟨[a, b, '/', c, d] ++ lit2024sl, v, stripL desc, [], line⟩
      | none => none
    else none
  | _ => none

def ChaseParser.extract_transactions (text : Chars) : List Txn :=
  match chaseSectionOpt text with
  | none => []
  | some sec => (sectionLines sec).filterMap chaseLineTxn

def ChaseParser.detect_format (text : Chars) : Bool :=
  containsSub (upperStr text) litCHASE && containsSub (upperStr text) litAccountActivity

/-! ## Wells Fargo parser (`src/extraction.py`) -/

def litTransactionHistory : Chars := "TRANSACTION HISTORY".toList
def litMonthlyServiceFee : Chars := "MONTHLY SERVICE FEE SUMMARY".toList
def litImportantAccountInfo : Chars := "IMPORTANT ACCOUNT INFORMATION".toList
def litWellsFargoU : Chars := "WELLS FARGO".toList

def wellsFargoStops : List Chars := [litMonthlyServiceFee, litImportantAccountInfo]

def wellsFargoSectionOpt (text : Chars) : Option Chars :=
  match findLit litTransactionHistory text with
  | none => none
  | some i =>
    let rest := text.drop (i + litTransactionHistory.length)
    some (litTransactionHistory ++
      match findNearestStop wellsFargoStops rest with
      | some (j, len) => rest.take (j + len)
      | none => rest)

/-- Greedy `\d{1,2}`: both digits when two are present, else one. -/
def digits12 (s : Chars) : Option (Chars × Chars) :=
  match s with
  | a :: b :: r =>
    if isDigitCh a then
      (if isDigitCh b then some ([a, b], r) else some ([a], b :: r))
    else none
  | [a] => if isDigitCh a then some ([a], []) else none
  | [] => none

/-- `re.match` of `(\d{1,2}/\d{1,2})\s+(.*?)\s+(-?\$?\d{1,3}(?:,\d{3})*\.\d{2})`.
When the greedy two-digit day is followed by something other than `/` the
one-digit retry faces a digit there and fails too, so the commitment below
agrees with the regex. -/
def wellsFargoLineTxn (line : Chars) : Option Txn :=
  match digits12 line with
  | none => none
  | some (d1, r1) =>
    match r1 with
    | '/' :: r2 =>
      match digits12 r2 with
      | none => none
      | some (d2, r3) =>
        match lazyDescScan chaseTailM r3 with
        | some (desc, v) =>
          some ⟨d1 ++ ['/'] ++ d2 ++ lit2024sl, v, stripL desc, [], line⟩
        | none => none
    | _ => none

def WellsFargoParser.extract_transactions (text : Chars) : List Txn :=
  match wellsFargoSectionOpt text with
  | none => []
  | some sec => (sectionLines sec).filterMap wellsFargoLineTxn

def WellsFargoParser.detect_format (text : Chars) : Bool :=
  containsSub (upperStr text) litWellsFargoU && containsSub (upperStr text) litTransactionHistory

/-! ## Format detection (`extract_transactions_from_pdf` of `src/extraction.py`) -/

/-- One registered format: detection predicate and extraction function over the
document text (the PDF-to-text step is the excluded upstream collaborator). -/
structure FormatParser where
  detect : Chars → Bool
  extract : Chars → List Txn

/-- The `parsers` list of `extract_transactions_from_pdf`, in declared order. -/
def registeredParsers : List FormatParser :=
  [⟨ProsperityBankParser.detect_format, ProsperityBankParser.extract_transactions⟩,
   ⟨ChaseParser.detect_format, ChaseParser.extract_transactions⟩,
   ⟨WellsFargoParser.detect_format, WellsFargoParser.extract_transactions⟩]

/-- Try each registered parser in order; extract with the first whose
`detect_format` holds; with no match, return the empty list (no exception). -/
def extract_transactions_from_pdf (text : Chars) : List Txn :=
  match registeredParsers.find? (fun p => p.detect text) with
  | some p => p.extract text
  | none => []

/-! ## Comerica parser (`src/parsers/comerica_parser.py`) -/

def litComDepHdr : Chars := "Paper depositsthisstatementperiod".toList
def litTransferFrom : Chars := "Transfer from".toList
def litElectronicWithdrawalsSp : Chars := "Electronic withdrawals".toList
def litComTrfHdr : Chars := "Transferfrom otheraccountsthisstatementperiod".toList
def litComWdrHdr : Chars := "Electronicwithdrawalsthisstatementperiod".toList
def litFeesAnd : Chars := "Fees and".toList
def litComFeeHdr : Chars := "Feesandservice chargesthisstatementperiod".toList
def litLowestDaily : Chars := "Lowest daily".toList
def litBasicBusinessChecking : Chars := "BasicBusinessChecking".toList
def litCOMERICA : Chars := "COMERICA".toList

/-- `re.search(r"HDR.*?(?=STOP1|STOP2|$)", re.DOTALL)`, `group(0)`: only the
first header occurrence is found, the lazy run stops before the nearest stop
literal (a lookahead, so the stop is not included), or at the end of text. -/
def searchSection (header : Chars) (stops : List Chars) (text : Chars) : Option Chars :=
  match findLit header text with
  | none => none
  | some i =>
    let rest := text.drop (i + header.length)
    some (header ++
      match findNearestStop stops rest with
      | some (j, _) => rest.take j
      | none => rest)

/-- `([A-Z][a-z]{2})(\d{1,2})`: month abbreviation and day token. -/
def parseMonDay (s : Chars) : Option (Chars × Chars × Chars) :=
  match s with
  | a :: b :: c :: rest =>
    if isUpperCh a && isLowerCh b && isLowerCh c then
      (digits12 rest).map (fun p => ([a, b, c], p.1, p.2))
    else none
  | _ => none

/-- `[\d,]+\.\d{2}`: cents and rest.  The digit/comma run is maximal; shorter
prefixes of it end before a digit or comma, never before the required `\.`,
so it admits no backtracking.  `float` sees the token with commas removed. -/
def parseMoneyLoose (s : Chars) : Option (Int × Chars) :=
  let run := s.takeWhile (fun c => isDigitCh c || c = ',')
  if run = [] then none
  else
    match s.drop run.length with
    | '.' :: a :: b :: rest =>
      if isDigitCh a && isDigitCh b then
        some ((digitsVal (run.filter isDigitCh) * 100 + digitVal a * 10 + digitVal b : Nat), rest)
      else none
    | _ => none

/-- `-?[\d,]+\.\d{2}`. -/
def parseMoneyLooseNeg (s : Chars) : Option (Int × Chars) :=
  match s with
  | '-' :: r => (parseMoneyLoose r).map (fun p => (-p.1, p.2))
  | _ => parseMoneyLoose s

/-- `(\w+)`: greedy word, at least one character. -/
def wordTailM (s : Chars) : Option (Chars × Chars) :=
  let w := s.takeWhile isWordCh
  if w = [] then none else some (w, s.drop w.length)

/-- `(\w+)\s+(\w+)`: two words separated by whitespace. -/
def twoWordTailM (s : Chars) : Option ((Chars × Chars) × Chars) :=
  match wordTailM s with
  | none => none
  | some (w1, r1) =>
    let ws := wsRun r1
    if ws = 0 then none
    else
      match wordTailM (r1.drop ws) with
      | none => none
      | some (w2, r2) => some ((w1, w2), r2)

/-- `(\d+)`: greedy digit run, at least one character. -/
def digitsTailM (s : Chars) : Option (Chars × Chars) :=
  let w := s.takeWhile isDigitCh
  if w = [] then none else some (w, s.drop w.length)

structure CDep where
  mon : Chars
  day : Chars
  cents : Int
  ref : Chars

/-- Deposit line `([A-Z][a-z]{2})(\d{1,2})\s+([\d,]+\.\d{2})\s+(\d+)`. -/
def comericaDepositM (s : Chars) : Option (CDep × Chars) :=
  match parseMonDay s with
  | none => none
  | some (mon, day, r1) =>
    let w := wsRun r1
    if w = 0 then none
    else
      match parseMoneyLoose (r1.drop w) with
      | none => none
      | some (v, r2) =>
        let w2 := wsRun r2
        if w2 = 0 then none
        else
          match digitsTailM (r2.drop w2) with
          | none => none
          | some (ref, r3) => some (⟨mon, day, v, ref⟩, r3)

structure CTrf where
  mon : Chars
  day : Chars
  cents : Int
  activity : Chars
  account : Chars
  ref : Chars

/-- Transfer line `([A-Z][a-z]{2})(\d{1,2})\s+([\d,]+\.\d{2})\s+(.*?)\s+(\w+)\s+(\w+)`. -/
def comericaTransferM (s : Chars) : Option (CTrf × Chars) :=
  match parseMonDay s with
  | none => none
  | some (mon, day, r1) =>
    let w := wsRun r1
    if w = 0 then none
    else
      match parseMoneyLoose (r1.drop w) with
      | none => none
      | some (v, r2) =>
        match lazyDescScan twoWordTailM r2 with
        | none => none
        | some (act, ((w1, w2), r3)) => some (⟨mon, day, v, act, w1, w2⟩, r3)

structure CWdr where
  mon : Chars
  day : Chars
  cents : Int
  activity : Chars
  ref : Chars

/-- Withdrawal line `([A-Z][a-z]{2})(\d{1,2})\s+(-?[\d,]+\.\d{2})\s+(.*?)\s+(\w+)`. -/
def comericaWithdrawalM (s : Chars) : Option (CWdr × Chars) :=
  match parseMonDay s with
  | none => none
  | some (mon, day, r1) =>
    let w := wsRun r1
    if w = 0 then none
    else
      match parseMoneyLooseNeg (r1.drop w) with
      | none => none
      | some (v, r2) =>
        match lazyDescScan wordTailM r2 with
        | none => none
        | some (act, (rf, r3)) => some (⟨mon, day, v, act, rf⟩, r3)

/-- Fee line `([A-Z][a-z]{2})(\d{1,2})\s+(-?[\d,]+\.\d{2})\s+(.*?)\s+(\d+)`. -/
def comericaFeeM (s : Chars) : Option (CWdr × Chars) :=
  match parseMonDay s with
  | none => none
  | some (mon, day, r1) =>
    let w := wsRun r1
    if w = 0 then none
    else
      match parseMoneyLooseNeg (r1.drop w) with
      | none => none
      | some (v, r2) =>
        match lazyDescScan digitsTailM r2 with
        | none => none
        | some (act, (rf, r3)) => some (⟨mon, day, v, act, rf⟩, r3)

/-! Statement-period search
`([A-Za-z]+)\s*(\d{1,2})\s*,\s*(\d{4})\s*to\s*([A-Za-z]+)\s*(\d{1,2})\s*,\s*(\d{4})`;
group 3 becomes the statement year. -/

/-- `\s*,\s*(\d{4})`: the year after a day token, and the rest. -/
def periodYear1 (r : Chars) : Option (Nat × Chars) :=
  match r.dropWhile isWs with
  | ',' :: r2 =>
    match r2.dropWhile isWs with
    | a :: b :: c :: d :: r3 =>
      if [a, b, c, d].all isDigitCh then some (digitsVal [a, b, c, d], r3) else none
    | _ => none
  | _ => none

/-- `\s*to\s*([A-Za-z]+)\s*(\d{1,2})\s*,\s*(\d{4})`: the second half. -/
def periodSecondHalf (r : Chars) : Bool :=
  match r.dropWhile isWs with
  | 't' :: 'o' :: r2 =>
    let r3 := r2.dropWhile isWs
    let l2 := r3.takeWhile isAlphaCh
    if l2 = [] then false
    else
      let r4 := (r3.drop l2.length).dropWhile isWs
      match r4 with
      | d1 :: d2 :: r5 =>
        if isDigitCh d1 then
          (if isDigitCh d2 then
            (if (periodYear1 r5).isSome then true else (periodYear1 (d2 :: r5)).isSome)
          else (periodYear1 (d2 :: r5)).isSome)
        else false
      | _ => false
  | _ => false

/-- The period pattern anchored at the current position; the greedy two-digit
day is retried at one digit when the remainder fails, as the regex does. -/
def periodFrom (s : Chars) : Option (Nat × Chars) :=
  let l1 := s.takeWhile isAlphaCh
  if l1 = [] then none
  else
    let r1 := (s.drop l1.length).dropWhile isWs
    match r1 with
    | d1 :: d2 :: r2 =>
      if isDigitCh d1 then
        let try2 : Option Nat :=
          if isDigitCh d2 then
            match periodYear1 r2 with
            | some (y, r3) => if periodSecondHalf r3 then some y else none
            | none => none
          else none
        match try2 with
        | some y => some (y, [])
        | none =>
          match periodYear1 (d2 :: r2) with
          | some (y, r3) => if periodSecondHalf r3 then some (y, []) else none
          | none => none
      else none
    | _ => none

/-- `re.search` of the period pattern: year of its first match. -/
def comericaPeriodYear (text : Chars) : Option Nat :=
  match scan1 periodFrom text with
  | some (y, _) => some y
  | none => none

/-- The statement year: from the period header when present, otherwise the
current calendar year (`datetime.now().year`, a parameter of the embedding). -/
def comericaStatementYear (currentYear : Nat) (text : Chars) : Nat :=
  (comericaPeriodYear text).getD currentYear

def litCommaSp : Chars := ", ".toList
def litRefSep : Chars := " Ref:".toList
def litPaperDepRef : Chars := "Paper Deposit Ref:".toList
def litDepositTy : Chars := "deposit".toList
def litTransferTy : Chars := "transfer".toList
def litFeeDash : Chars := "Fee-".toList
def litServiceCharge : Chars := "ServiceCharge".toList
def litWire : Chars := "Wire".toList
def litZelle : Chars := "Zelle".toList
def litWfPayment : Chars := "Wf Payment".toList
def litWf : Chars := "Wf".toList
def litToyota : Chars := "Toyota".toList
def litAlly : Chars := "Ally".toList
def litGMFinancial : Chars := "GMFinancial".toList
def litFordMotor : Chars := "FordMotor".toList
def litTdAutoFinance : Chars := "TdAutoFinance".toList
def litBridgecrest : Chars := "Bridgecrest".toList
def litFeeOverdraft : Chars := "Fee-Overdraft".toList
def litFeeReturnedItem : Chars := "Fee-ReturnedItem".toList

/-- `f"{month} {day}, {statement_year}"`. -/
def comericaDateStr (mon day : Chars) (y : Nat) : Chars :=
  mon ++ [' '] ++ day ++ litCommaSp ++ natChars y

/-- The withdrawal `txn_type` keyword chain, in source order. -/
def comericaWithdrawalType (activity : Chars) : Chars :=
  if containsSub activity litWire then "wire_transfer".toList
  else if containsSub activity litZelle then "zelle".toList
  else if containsSub activity litWfPayment || containsSub activity litWf then
    "wells_fargo_payment".toList
  else if containsSub activity litToyota then "toyota_payment".toList
  else if containsSub activity litAlly then "ally_payment".toList
  else if containsSub activity litGMFinancial then "gm_financial_payment".toList
  else if containsSub activity litFordMotor then "ford_payment".toList
  else if containsSub activity litTdAutoFinance then "td_auto_payment".toList
  else if containsSub activity litBridgecrest then "bridgecrest_payment".toList
  else "other_withdrawal".toList

/-- The fee `fee_type` keyword chain, in source order. -/
def comericaFeeType (activity : Chars) : Chars :=
  if containsSub activity litFeeOverdraft then "overdraft_fee".toList
  else if containsSub activity litFeeReturnedItem then "returned_item_fee".toList
  else if containsSub activity litServiceCharge then "service_charge".toList
  else "other_fee".toList

def comericaDeposits (y : Nat) (text : Chars) : List Txn :=
  match searchSection litComDepHdr [litTransferFrom, litElectronicWithdrawalsSp] text with
  | none => []
  | some sec =>
    (finditer comericaDepositM sec).map fun d =>
      ⟨comericaDateStr d.mon d.day y, d.cents, litPaperDepRef ++ d.ref, litDepositTy, []⟩

def comericaTransfers (y : Nat) (text : Chars) : List Txn :=
  match searchSection litComTrfHdr [litComWdrHdr] text with
  | none => []
  | some sec =>
    (finditer comericaTransferM sec).map fun t =>
      ⟨comericaDateStr t.mon t.day y, t.cents,
       t.activity ++ [' '] ++ t.account ++ litRefSep ++ t.ref, litTransferTy, []⟩

/-- The withdrawals section: lines whose activity contains `Fee-` or
`ServiceCharge` are skipped (they belong to the fees section). -/
def comericaWithdrawals (y : Nat) (text : Chars) : List Txn :=
  match searchSection litComWdrHdr [litFeesAnd] text with
  | none => []
  | some sec =>
    (finditer comericaWithdrawalM sec).filterMap fun w =>
      if containsSub w.activity litFeeDash || containsSub w.activity litServiceCharge then none
      else some ⟨comericaDateStr w.mon w.day y, w.cents, w.activity ++ litRefSep ++ w.ref,
                 comericaWithdrawalType w.activity, []⟩

def comericaFees (y : Nat) (text : Chars) : List Txn :=
  match searchSection litComFeeHdr [litLowestDaily] text with
  | none => []
  | some sec =>
    (finditer comericaFeeM sec).map fun f =>
      ⟨comericaDateStr f.mon f.day y, f.cents, f.activity ++ litRefSep ++ f.ref,
       comericaFeeType f.activity, []⟩

/-! ## Deduplication and the full Comerica extraction -/

/-- The dedup identity used by the Comerica parser. -/
def txnKey (t : Txn) : Chars × Int × Chars := (t.date, t.amount, t.description)

/-- The `seen`-set loop: keep the first transaction of each key. -/
def dedupAux (seen : List (Chars × Int × Chars)) : List Txn → List Txn
  | [] => []
  | t :: ts =>
    if txnKey t ∈ seen then dedupAux seen ts
    else t :: dedupAux (txnKey t :: seen) ts

def removeDuplicates (l : List Txn) : List Txn := dedupAux [] l

def comericaBDYkey (t : Txn) : Option Nat := strptimeBDY t.date

/-- `ComericaParser.extract_transactions`: period year, four sections in
source order, duplicate removal, sort by `%b %d, %Y` date. -/
def ComericaParser.extract_transactions (currentYear : Nat) (text : Chars) : Option (List Txn) :=
  let y := comericaStatementYear currentYear text
  let all := comericaDeposits y text ++ comericaTransfers y text ++
             comericaWithdrawals y text ++ comericaFees y text
  sortTxns comericaBDYkey (removeDuplicates all)

def ComericaParser.detect_format (text : Chars) : Bool :=
  containsSub (text.filter (· ≠ ' ')) litBasicBusinessChecking &&
  containsSub (upperStr text) litCOMERICA

/-! ## Classifier (`categorize_transactions` of `src/comprehensive_analysis.py`) -/

structure Categories where
  deposits : List Txn
  paper_deposits : List Txn
  transfers : List Txn
  checks : List Txn
  atm_debit : List Txn
  electronic_withdrawals : List Txn
  fees_services : List Txn
deriving DecidableEq

def emptyCategories : Categories := ⟨[], [], [], [], [], [], []⟩

def feeTypes : List Chars :=
  ["overdraft_fee".toList, "returned_item_fee".toList, "service_charge".toList,
   "other_fee".toList]

def paymentTypes : List Chars :=
  ["wells_fargo_payment".toList, "toyota_payment".toList, "ally_payment".toList,
   "gm_financial_payment".toList, "ford_payment".toList, "td_auto_payment".toList,
   "bridgecrest_payment".toList]

/-- The classification of one transaction, in source branch order.  Note the
two fall-through gaps of the source: a transaction whose amount is exactly
zero and which reaches the sign fallback is appended to no category list. -/
def categorizeStep (c : Categories) (t : Txn) : Categories :=
  let description := lowerStr t.description
  let amount := t.amount
  let ty := lowerStr t.typ
  if ty ≠ [] then
    if ty = litDepositTy then {c with paper_deposits := c.paper_deposits ++ [t]}
    else if ty = litTransferTy then {c with transfers := c.transfers ++ [t]}
    else if ty = ("wire_transfer".toList) then
      {c with electronic_withdrawals := c.electronic_withdrawals ++ [t]}
    else if ty = ("zelle".toList) then
      {c with electronic_withdrawals := c.electronic_withdrawals ++ [t]}
    else if ty ∈ feeTypes then {c with fees_services := c.fees_services ++ [t]}
    else if ty ∈ paymentTypes then
      {c with electronic_withdrawals := c.electronic_withdrawals ++ [t]}
    else if 0 < amount then {c with deposits := c.deposits ++ [t]}
    else if amount < 0 then
      {c with electronic_withdrawals := c.electronic_withdrawals ++ [t]}
    else c
  else
    if containsSub description ("paper deposit".toList) then
      {c with paper_deposits := c.paper_deposits ++ [t]}
    else if containsSub description ("transfer".toList) ||
        containsSub description ("webfundstransfer".toList) then
      {c with transfers := c.transfers ++ [t]}
    else if containsSub description ("check".toList) then
      {c with checks := c.checks ++ [t]}
    else if containsSub description ("atm".toList) || containsSub description ("debit".toList) ||
        containsSub description ("pos".toList) || containsSub description ("purchase".toList) then
      {c with atm_debit := c.atm_debit ++ [t]}
    else if containsSub description ("fee".toList) ||
        containsSub description ("service charge".toList) ||
        containsSub description ("overdraft".toList) then
      {c with fees_services := c.fees_services ++ [t]}
    else if 0 < amount then {c with deposits := c.deposits ++ [t]}
    else if amount < 0 then
      {c with electronic_withdrawals := c.electronic_withdrawals ++ [t]}
    else c

def categorize_transactions (txns : List Txn) : Categories :=
  txns.foldl categorizeStep emptyCategories

/-- The type tags the classifier's first branch recognizes. -/
def knownTypeP (ty : Chars) : Prop :=
  ty = litDepositTy ∨ ty = litTransferTy ∨ ty = ("wire_transfer".toList) ∨
  ty = ("zelle".toList) ∨ ty ∈ feeTypes ∨ ty ∈ paymentTypes

instance (ty : Chars) : Decidable (knownTypeP ty) := by
  unfold knownTypeP; exact inferInstance

/-- The description keywords of the classifier's fallback branch. -/
def keywordMatchP (description : Chars) : Prop :=
  containsSub description ("paper deposit".toList) = true ∨
  containsSub description ("transfer".toList) = true ∨
  containsSub description ("webfundstransfer".toList) = true ∨
  containsSub description ("check".toList) = true ∨
  containsSub description ("atm".toList) = true ∨
  containsSub description ("debit".toList) = true ∨
  containsSub description ("pos".toList) = true ∨
  containsSub description ("purchase".toList) = true ∨
  containsSub description ("fee".toList) = true ∨
  containsSub description ("service charge".toList) = true ∨
  containsSub description ("overdraft".toList) = true

instance (d : Chars) : Decidable (keywordMatchP d) := by
  unfold keywordMatchP; exact inferInstance

/-- The transactions `categorize_transactions` appends to no list: zero amount
and neither a recognized type tag nor a description keyword. -/
def categorizeDrops (t : Txn) : Bool :=
  if t.amount = 0 then
    if lowerStr t.typ ≠ [] then
      (if knownTypeP (lowerStr t.typ) then false else true)
    else
      (if keywordMatchP (lowerStr t.description) then false else true)
  else false

/-- All seven category lists, concatenated. -/
def categoriesAll (c : Categories) : List Txn :=
  c.deposits ++ c.paper_deposits ++ c.transfers ++ c.checks ++ c.atm_debit ++
  c.electronic_withdrawals ++ c.fees_services

def sumAmounts (l : List Txn) : Int := (l.map Txn.amount).sum

def categoriesSum (c : Categories) : Int := sumAmounts (categoriesAll c)

/-! ## Merchant grouping -/

/-- Insertion-ordered grouping map (`defaultdict(list)` keyed by strings). -/
def groupsAdd (gs : List (Chars × List Txn)) (k : Chars) (t : Txn) :
    List (Chars × List Txn) :=
  match gs with
  | [] => [(k, [t])]
  | (k0, ts) :: rest =>
    if k0 = k then (k0, ts ++ [t]) :: rest else (k0, ts) :: groupsAdd rest k t

def groupByKey (f : Txn → Chars) (txns : List Txn) : List (Chars × List Txn) :=
  txns.foldl (fun gs t => groupsAdd gs (f t) t) []

/-- The merchant-key chain of `group_transactions_by_merchant`
(`src/extraction.py`), in source branch order: Uber, QuikTrip and Discount
Tire before the `*` rule; ATM, vehicle-registration, `.gov` and bank-fee
markers after it; then the first whitespace token, or the description itself
when it has no tokens. -/
def merchantKeyOfDesc (description : Chars) : Chars :=
  if containsSub description ("Uber".toList) || containsSub description ("UberTrip".toList) then
    "Uber (All Services)".toList
  else if startsWithL ("Qt".toList) description then "QuikTrip (All Locations)".toList
  else if startsWithL ("Discount".toList) description then "Discount Tire".toList
  else if containsSub description ['*'] then stripL (description.takeWhile (· ≠ '*'))
  else if startsWithL ("W/DAt".toList) description then "ATM Withdrawal".toList
  else if containsSub description ("Vehreg".toList) then "Vehicle Registration".toList
  else if containsSub description (".gov".toList) then "Government Services".toList
  else if containsSub description ("BankFee".toList) ||
      containsSub description ("ATMUsageFee".toList) then "Bank Fees".toList
  else
    match splitWs description with
    | [] => description
    | w :: _ => w

def merchantKey (t : Txn) : Chars := merchantKeyOfDesc t.description

/-- One merchant group of the output mapping: key, `total_amount`,
`transaction_count`, `transactions`. -/
def group_transactions_by_merchant (txns : List Txn) : List (Chars × Int × Nat × List Txn) :=
  (groupByKey merchantKey txns).map fun g => (g.1, sumAmounts g.2, g.2.length, g.2)

/-- The grouping-key chain of `group_similar_transactions`
(`src/comprehensive_analysis.py`), in source branch order. -/
def similarMerchant (t : Txn) : Chars :=
  let description := t.description
  let ty := lowerStr t.typ
  if ty = litDepositTy then "Paper Deposits".toList
  else if ty = litTransferTy then "WebFunds Transfer".toList
  else if ty = ("wire_transfer".toList) then "Wire Transfer".toList
  else if ty = ("zelle".toList) then "Zelle".toList
  else if ty ∈ feeTypes then "Fees".toList
  else if ty ∈ paymentTypes then
    (if containsSub ty ("wells_fargo".toList) then "Wells Fargo Payment".toList
     else if containsSub ty ("toyota".toList) then "Toyota Payment".toList
     else if containsSub ty ("ally".toList) then "Ally Payment".toList
     else if containsSub ty ("gm_financial".toList) then "GM Financial Payment".toList
     else if containsSub ty ("ford".toList) then "Ford Payment".toList
     else if containsSub ty ("td_auto".toList) then "TD Auto Payment".toList
     else if containsSub ty ("bridgecrest".toList) then "Bridgecrest Payment".toList
     else "Other Payment".toList)
  else
    if containsSub description ['*'] then stripL (description.takeWhile (· ≠ '*'))
    else if containsSub (lowerStr description) ("check #".toList) then "Checks".toList
    else if containsSub (lowerStr description) ("paper deposit".toList) then
      "Paper Deposits".toList
    else if containsSub (lowerStr description) ("transfer".toList) then "Transfers".toList
    else if containsSub (lowerStr description) ("fee".toList) then "Fees".toList
    else if containsSub (lowerStr description) ("zelle".toList) then "Zelle".toList
    else if containsSub (lowerStr description) ("wire".toList) then "Wire Transfer".toList
    else
      match splitWs description with
      | [] => description
      | w :: _ => w

def group_similar_transactions (txns : List Txn) : List (Chars × Int × Nat × List Txn) :=
  (groupByKey similarMerchant txns).map fun g => (g.1, sumAmounts g.2, g.2.length, g.2)

/-- Sum of `total_amount` over a grouping result. -/
def groupsSum (gs : List (Chars × Int × Nat × List Txn)) : Int :=
  (gs.map fun g => g.2.1).sum

/-! ## General lemmas -/

theorem pyAbs_nonneg (a : Int) : 0 ≤ pyAbs a := by
  unfold pyAbs; split <;> omega

theorem dropLit_self_append (p r : Chars) : dropLit p (p ++ r) = some r := by
  induction p with
  | nil => simp [dropLit]
  | cons c cs ih => simp [dropLit, ih]

theorem startsWithL_append (p r : Chars) : startsWithL p (p ++ r) = true := by
  simp [startsWithL, dropLit_self_append]

theorem endsWithL_append (p x : Chars) : endsWithL p (x ++ p) = true := by
  unfold endsWithL
  rw [List.reverse_append]
  exact startsWithL_append _ _

theorem containsSub_cons (c : Char) (cs pat : Chars) :
    containsSub (c :: cs) pat = (startsWithL pat (c :: cs) || containsSub cs pat) := by
  simp only [containsSub, findLit]
  by_cases h : startsWithL pat (c :: cs) = true
  · simp [h]
  · rw [Bool.not_eq_true] at h
    cases hf : findLit pat cs <;> simp [h, hf]

theorem containsSub_of_starts {pat s : Chars} (h : startsWithL pat s = true) :
    containsSub s pat = true := by
  cases s with
  | nil => simp [containsSub, findLit, h]
  | cons c cs => rw [containsSub_cons]; simp [h]

theorem containsSub_of_suffix_starts {pat s s₂ : Chars} (hs : s₂ <:+ s)
    (hp : startsWithL pat s₂ = true) : containsSub s pat = true := by
  obtain ⟨x, rfl⟩ := hs
  induction x with
  | nil => exact containsSub_of_starts hp
  | cons c x ih => rw [List.cons_append, containsSub_cons, ih]; simp

theorem scan1_eq_none {α} (m : Chars → Option (α × Chars)) :
    ∀ s : Chars, (∀ s₂, s₂ <:+ s → m s₂ = none) → scan1 m s = none
  | [], h => by simpa [scan1] using h [] (List.suffix_refl [])
  | c :: cs, h => by
    have h1 : m (c :: cs) = none := h _ (List.suffix_refl _)
    have h2 : scan1 m cs = none :=
      scan1_eq_none m cs (fun s₂ hs => h s₂ (hs.trans (List.suffix_cons c cs)))
    simp [scan1, h1, h2]

theorem sectionHeaderM_starts {hdr s : Chars} {r : Unit × Chars}
    (h : sectionHeaderM hdr s = some r) : startsWithL hdr s = true := by
  unfold sectionHeaderM at h
  cases hd : dropLit hdr s with
  | none => rw [hd] at h; simp at h
  | some _ => simp [startsWithL, hd]

/-! ## Deduplication lemmas -/

theorem dedupAux_key_not_seen :
    ∀ (seen : List (Chars × Int × Chars)) (l : List Txn) (t : Txn),
      t ∈ dedupAux seen l → txnKey t ∉ seen
  | seen, [], t, h => by simp [dedupAux] at h
  | seen, t0 :: ts, t, h => by
    unfold dedupAux at h
    split at h
    · exact dedupAux_key_not_seen seen ts t h
    · rcases List.mem_cons.mp h with rfl | h2
      · assumption
      · have h3 := dedupAux_key_not_seen _ ts t h2
        exact fun hm => h3 (List.mem_cons_of_mem _ hm)

theorem dedupAux_pairwise :
    ∀ (seen : List (Chars × Int × Chars)) (l : List Txn),
      (dedupAux seen l).Pairwise (fun a b => txnKey a ≠ txnKey b)
  | seen, [] => by simp [dedupAux]
  | seen, t0 :: ts => by
    unfold dedupAux
    split
    · exact dedupAux_pairwise seen ts
    · refine List.Pairwise.cons ?_ (dedupAux_pairwise _ ts)
      intro b hb heq
      have h3 := dedupAux_key_not_seen _ ts b hb
      exact h3 (heq ▸ List.mem_cons_self _ _)

theorem dedupAux_subset :
    ∀ (seen : List (Chars × Int × Chars)) (l : List Txn), dedupAux seen l ⊆ l
  | _, [] => by simp [dedupAux]
  | seen, t0 :: ts => by
    unfold dedupAux
    split
    · exact (dedupAux_subset seen ts).trans (List.subset_cons_self _ _)
    · intro a ha
      rcases List.mem_cons.mp ha with rfl | h2
      · exact List.mem_cons_self _ _
      · exact List.mem_cons_of_mem _ (dedupAux_subset _ ts h2)

theorem removeDuplicates_pairwise (l : List Txn) :
    (removeDuplicates l).Pairwise (fun a b => txnKey a ≠ txnKey b) :=
  dedupAux_pairwise [] l

theorem removeDuplicates_subset (l : List Txn) : removeDuplicates l ⊆ l :=
  dedupAux_subset [] l

/-! ## Sorting lemmas -/

theorem sortTxns_some {f : Txn → Option Nat} {l l' : List Txn}
    (h : sortTxns f l = some l') : l' = List.insertionSort (dateLE f) l := by
  unfold sortTxns at h
  split at h
  · exact (Option.some.inj h).symm
  · cases h

theorem sortTxns_sorted {f : Txn → Option Nat} {l l' : List Txn}
    (h : sortTxns f l = some l') : l'.Sorted (dateLE f) := by
  rw [sortTxns_some h]; exact List.sorted_insertionSort _ _

theorem sortTxns_perm {f : Txn → Option Nat} {l l' : List Txn}
    (h : sortTxns f l = some l') : l'.Perm l := by
  rw [sortTxns_some h]; exact List.perm_insertionSort _ _

/-! ## Classifier lemmas -/

inductive CatName
  | dep
  | pap
  | trf
  | chk
  | atm
  | ew
  | fee
deriving DecidableEq

def appendCat (c : Categories) (n : CatName) (t : Txn) : Categories :=
  match n with
  | CatName.dep => {c with deposits := c.deposits ++ [t]}
  | CatName.pap => {c with paper_deposits := c.paper_deposits ++ [t]}
  | CatName.trf => {c with transfers := c.transfers ++ [t]}
  | CatName.chk => {c with checks := c.checks ++ [t]}
  | CatName.atm => {c with atm_debit := c.atm_debit ++ [t]}
  | CatName.ew => {c with electronic_withdrawals := c.electronic_withdrawals ++ [t]}
  | CatName.fee => {c with fees_services := c.fees_services ++ [t]}

/-- The category a transaction is appended to, mirroring the branch order of
`categorizeStep`; `none` on the zero-amount fall-through. -/
def assignedCat (t : Txn) : Option CatName :=
  let description := lowerStr t.description
  let amount := t.amount
  let ty := lowerStr t.typ
  if ty ≠ [] then
    if ty = litDepositTy then some CatName.pap
    else if ty = litTransferTy then some CatName.trf
    else if ty = ("wire_transfer".toList) then some CatName.ew
    else if ty = ("zelle".toList) then some CatName.ew
    else if ty ∈ feeTypes then some CatName.fee
    else if ty ∈ paymentTypes then some CatName.ew
    else if 0 < amount then some CatName.dep
    else if amount < 0 then some CatName.ew
    else none
  else
    if containsSub description ("paper deposit".toList) then some CatName.pap
    else if containsSub description ("transfer".toList) ||
        containsSub description ("webfundstransfer".toList) then some CatName.trf
    else if containsSub description ("check".toList) then some CatName.chk
    else if containsSub description ("atm".toList) || containsSub description ("debit".toList) ||
        containsSub description ("pos".toList) || containsSub description ("purchase".toList) then
      some CatName.atm
    else if containsSub description ("fee".toList) ||
        containsSub description ("service charge".toList) ||
        containsSub description ("overdraft".toList) then some CatName.fee
    else if 0 < amount then some CatName.dep
    else if amount < 0 then some CatName.ew
    else none

set_option maxHeartbeats 2000000 in
theorem categorizeStep_eq (c : Categories) (t : Txn) :
    categorizeStep c t =
      match assignedCat t with
      | some n => appendCat c n t
      | none => c := by
  unfold categorizeStep assignedCat
  dsimp only
  split_ifs <;> rfl

set_option maxHeartbeats 2000000 in
theorem categorizeDrops_iff (t : Txn) : categorizeDrops t = (assignedCat t).isNone := by
  unfold categorizeDrops assignedCat
  dsimp only
  split_ifs <;> simp_all [knownTypeP, keywordMatchP] <;> omega

theorem categoriesAll_appendCat (c : Categories) (n : CatName) (t : Txn) :
    (↑(categoriesAll (appendCat c n t)) : Multiset Txn) = ↑(categoriesAll c) + {t} := by
  cases n <;>
    simp only [appendCat, categoriesAll, ← Multiset.coe_add, ← Multiset.coe_singleton] <;>
    abel

theorem categorize_fold (txns : List Txn) : ∀ c : Categories,
    (↑(categoriesAll (txns.foldl categorizeStep c)) : Multiset Txn) =
      ↑(categoriesAll c) + ↑(txns.filter (fun t => !categorizeDrops t)) := by
  induction txns with
  | nil => intro c; simp
  | cons t ts ih =>
    intro c
    rw [List.foldl_cons, ih, categorizeStep_eq, List.filter_cons]
    by_cases hd : categorizeDrops t
    · have hn : assignedCat t = none := by
        have := categorizeDrops_iff t
        rw [hd] at this
        exact (Option.isNone_iff_eq_none.mp this.symm)
      rw [hn]
      simp [hd]
    · have hn : (assignedCat t).isNone = false := by
        rw [← categorizeDrops_iff]
        exact Bool.not_eq_true _ ▸ hd
      cases ha : assignedCat t with
      | none => rw [ha] at hn; simp at hn
      | some n =>
        dsimp only
        rw [categoriesAll_appendCat]
        have hb : (!categorizeDrops t) = true := by simp [hd]
        rw [if_pos hb]
        rw [show ((t :: List.filter (fun t => !categorizeDrops t) ts : List Txn) : Multiset Txn)
             = t ::ₘ ↑(List.filter (fun t => !categorizeDrops t) ts) from (Multiset.cons_coe t _).symm]
        rw [← Multiset.singleton_add]
        abel

/-! ## Conservation lemmas -/

theorem sumAmounts_cons (t : Txn) (l : List Txn) :
    sumAmounts (t :: l) = t.amount + sumAmounts l := by
  simp [sumAmounts]

theorem sumAmounts_perm {l₁ l₂ : List Txn} (h : l₁.Perm l₂) :
    sumAmounts l₁ = sumAmounts l₂ :=
  List.Perm.sum_eq (h.map _)

theorem categorizeDrops_amount {t : Txn} (h : categorizeDrops t = true) : t.amount = 0 := by
  unfold categorizeDrops at h
  by_cases h0 : t.amount = 0
  · exact h0
  · rw [if_neg h0] at h; cases h

theorem sumAmounts_filter_drops (txns : List Txn) :
    sumAmounts (txns.filter (fun t => !categorizeDrops t)) = sumAmounts txns := by
  induction txns with
  | nil => rfl
  | cons t ts ih =>
    rw [List.filter_cons]
    by_cases hd : categorizeDrops t
    · have hb : (!categorizeDrops t) = false := by simp [hd]
      rw [hb, if_neg (by simp), ih, sumAmounts_cons, categorizeDrops_amount hd, zero_add]
    · have hb : (!categorizeDrops t) = true := by simp [hd]
      rw [hb, if_pos rfl, sumAmounts_cons, sumAmounts_cons, ih]

theorem categoriesSum_eq (txns : List Txn) :
    categoriesSum (categorize_transactions txns) = sumAmounts txns := by
  unfold categoriesSum
  have hms := categorize_fold txns emptyCategories
  have h0 : (↑(categoriesAll emptyCategories) : Multiset Txn) = 0 := by
    simp [categoriesAll, emptyCategories]
  rw [h0, zero_add] at hms
  have hperm : (categoriesAll (categorize_transactions txns)).Perm
      (txns.filter (fun t => !categorizeDrops t)) := by
    rw [← Multiset.coe_eq_coe]
    exact hms
  rw [sumAmounts_perm hperm, sumAmounts_filter_drops]

theorem groupsAdd_sum (gs : List (Chars × List Txn)) (k : Chars) (t : Txn) :
    (((groupsAdd gs k t).map (fun g => sumAmounts g.2)).sum : Int) =
      ((gs.map (fun g => sumAmounts g.2)).sum) + t.amount := by
  induction gs with
  | nil => simp [groupsAdd, sumAmounts]
  | cons g rest ih =>
    obtain ⟨k0, ts⟩ := g
    unfold groupsAdd
    split
    · simp [sumAmounts, List.sum_append]
      omega
    · simp only [List.map_cons, List.sum_cons, ih]
      omega

theorem groupByKey_fold_sum (f : Txn → Chars) (txns : List Txn) : ∀ gs,
    (((txns.foldl (fun gs t => groupsAdd gs (f t) t) gs).map (fun g => sumAmounts g.2)).sum : Int) =
      ((gs.map (fun g => sumAmounts g.2)).sum) + sumAmounts txns := by
  induction txns with
  | nil => intro gs; simp [sumAmounts]
  | cons t ts ih =>
    intro gs
    rw [List.foldl_cons, ih, groupsAdd_sum, sumAmounts_cons]
    omega

theorem groupByKey_sum (f : Txn → Chars) (txns : List Txn) :
    (((groupByKey f txns).map (fun g => sumAmounts g.2)).sum : Int) = sumAmounts txns := by
  unfold groupByKey
  rw [groupByKey_fold_sum]
  simp

theorem group_merchant_sum (txns : List Txn) :
    groupsSum (group_transactions_by_merchant txns) = sumAmounts txns := by
  unfold groupsSum group_transactions_by_merchant
  rw [List.map_map]
  exact groupByKey_sum merchantKey txns

theorem group_similar_sum (txns : List Txn) :
    groupsSum (group_similar_transactions txns) = sumAmounts txns := by
  unfold groupsSum group_similar_transactions
  rw [List.map_map]
  exact groupByKey_sum similarMerchant txns

/-! ## Section shape lemmas -/

theorem comericaDateStr_endsWith (mon day : Chars) (y : Nat) :
    endsWithL (litCommaSp ++ natChars y) (comericaDateStr mon day y) = true := by
  unfold comericaDateStr
  rw [show mon ++ [' '] ++ day ++ litCommaSp ++ natChars y
        = (mon ++ [' '] ++ day) ++ (litCommaSp ++ natChars y) by simp [List.append_assoc]]
  exact endsWithL_append _ _

theorem comericaDeposits_date {y : Nat} {text : Chars} {t : Txn}
    (h : t ∈ comericaDeposits y text) : ∃ mon day, t.date = comericaDateStr mon day y := by
  unfold comericaDeposits at h
  split at h
  · cases h
  · obtain ⟨d, _, rfl⟩ := List.mem_map.mp h
    exact ⟨d.mon, d.day, rfl⟩

theorem comericaTransfers_date {y : Nat} {text : Chars} {t : Txn}
    (h : t ∈ comericaTransfers y text) : ∃ mon day, t.date = comericaDateStr mon day y := by
  unfold comericaTransfers at h
  split at h
  · cases h
  · obtain ⟨d, _, rfl⟩ := List.mem_map.mp h
    exact ⟨d.mon, d.day, rfl⟩

theorem comericaFees_date {y : Nat} {text : Chars} {t : Txn}
    (h : t ∈ comericaFees y text) : ∃ mon day, t.date = comericaDateStr mon day y := by
  unfold comericaFees at h
  split at h
  · cases h
  · obtain ⟨d, _, rfl⟩ := List.mem_map.mp h
    exact ⟨d.mon, d.day, rfl⟩

def comericaWithdrawalTypes : List Chars :=
  ["wire_transfer".toList, "zelle".toList, "wells_fargo_payment".toList,
   "toyota_payment".toList, "ally_payment".toList, "gm_financial_payment".toList,
   "ford_payment".toList, "td_auto_payment".toList, "bridgecrest_payment".toList,
   "other_withdrawal".toList]

theorem comericaWithdrawalType_mem (activity : Chars) :
    comericaWithdrawalType activity ∈ comericaWithdrawalTypes := by
  unfold comericaWithdrawalType comericaWithdrawalTypes
  split_ifs <;> simp

theorem comericaWithdrawals_shape {y : Nat} {text : Chars} {t : Txn}
    (h : t ∈ comericaWithdrawals y text) :
    t.typ ∈ comericaWithdrawalTypes ∧
    (∃ mon day, t.date = comericaDateStr mon day y) ∧
    ∃ act ref, t.description = act ++ litRefSep ++ ref ∧
      containsSub act litFeeDash = false ∧ containsSub act litServiceCharge = false := by
  unfold comericaWithdrawals at h
  split at h
  · cases h
  · obtain ⟨w, hw, he⟩ := List.mem_filterMap.mp h
    split at he
    · cases he
    · rename_i hcond
      cases he
      refine ⟨comericaWithdrawalType_mem _, ⟨w.mon, w.day, rfl⟩, w.activity, w.ref, rfl, ?_, ?_⟩
      · simp only [Bool.or_eq_true, not_or, Bool.not_eq_true] at hcond
        exact hcond.1
      · simp only [Bool.or_eq_true, not_or, Bool.not_eq_true] at hcond
        exact hcond.2

theorem comerica_extract_mem {cy : Nat} {text : Chars} {l : List Txn} {t : Txn}
    (h : ComericaParser.extract_transactions cy text = some l) (ht : t ∈ l) :
    t ∈ comericaDeposits (comericaStatementYear cy text) text ∨
    t ∈ comericaTransfers (comericaStatementYear cy text) text ∨
    t ∈ comericaWithdrawals (comericaStatementYear cy text) text ∨
    t ∈ comericaFees (comericaStatementYear cy text) text := by
  unfold ComericaParser.extract_transactions at h
  have h2 := (sortTxns_perm h).subset ht
  have h3 := removeDuplicates_subset _ h2
  simpa [List.mem_append, or_assoc] using h3

/-! ## Chase and Wells Fargo date shape -/

theorem chaseLineTxn_date {line : Chars} {t : Txn} (h : chaseLineTxn line = some t) :
    ∃ md, t.date = md ++ lit2024sl := by
  unfold chaseLineTxn at h
  split at h
  · split at h
    · split at h
      · cases h
        exact ⟨_, rfl⟩
      · cases h
    · cases h
  · cases h

theorem chase_extract_date {text : Chars} {t : Txn}
    (h : t ∈ ChaseParser.extract_transactions text) : endsWithL lit2024sl t.date = true := by
  unfold ChaseParser.extract_transactions at h
  split at h
  · cases h
  · obtain ⟨line, _, he⟩ := List.mem_filterMap.mp h
    obtain ⟨md, hdate⟩ := chaseLineTxn_date he
    rw [hdate]
    exact endsWithL_append _ _

theorem wellsFargoLineTxn_date {line : Chars} {t : Txn}
    (h : wellsFargoLineTxn line = some t) : ∃ md, t.date = md ++ lit2024sl := by
  unfold wellsFargoLineTxn at h
  split at h
  · cases h
  · split at h
    · split at h
      · cases h
      · split at h
        · cases h
          exact ⟨_, rfl⟩
        · cases h
    · cases h

theorem wellsFargo_extract_date {text : Chars} {t : Txn}
    (h : t ∈ WellsFargoParser.extract_transactions text) :
    endsWithL lit2024sl t.date = true := by
  unfold WellsFargoParser.extract_transactions at h
  split at h
  · cases h
  · obtain ⟨line, _, he⟩ := List.mem_filterMap.mp h
    obtain ⟨md, hdate⟩ := wellsFargoLineTxn_date he
    rw [hdate]
    exact endsWithL_append _ _

/-! ## Claim theorems -/

def c1prosText : Chars :=
  ("DEPOSITS/OTHER CREDITS Date Description Amount\n01/02/2024 FOO 1.00\n01/02/2024 FOO 1.00").toList

def c1prosTxn : Txn :=
  ⟨("01/02/2024").toList, 100, ("FOO").toList, [], ("01/02/2024 FOO 1.00").toList⟩

def c1comText : Chars :=
  ("Paper depositsthisstatementperiod Apr10 100.00 111 Apr10 100.00 111").toList

def c1comTxn : Txn :=
  ⟨("Apr 10, 2024").toList, 10000, ("Paper Deposit Ref:111").toList, ("deposit").toList, []⟩

/-- C1 (counterexample): the Prosperity parser retains two transactions with
an identical `(date, amount, description)` triple when the same line occurs
twice in a deposits section, so the no-duplicates property does not hold for
every registered parser variant. -/
theorem c1_prosperity_duplicates_counterexample :
    ProsperityParser.extract_transactions c1prosText = some [c1prosTxn, c1prosTxn] ∧
    ¬ ([c1prosTxn, c1prosTxn] : List Txn).Pairwise (fun a b => txnKey a ≠ txnKey b) := by
  refine ⟨by decide, ?_⟩
  intro h
  exact (List.pairwise_cons.mp h).1 _ (List.mem_cons_self _ _) rfl

/-- C1 (amended): only the Comerica parser deduplicates: every transaction
list it returns is pairwise distinct on the `(date, amount, description)`
triple, and two lines yielding the same triple leave a single transaction;
the Prosperity, Chase and Wells Fargo variants retain duplicates. -/
theorem c1_comerica_dedup :
    (∀ (cy : Nat) (text : Chars) (l : List Txn),
        ComericaParser.extract_transactions cy text = some l →
        l.Pairwise (fun a b => txnKey a ≠ txnKey b)) ∧
    ComericaParser.extract_transactions 2024 c1comText = some [c1comTxn] := by
  refine ⟨?_, by decide⟩
  intro cy text l h
  unfold ComericaParser.extract_transactions at h
  have hperm := sortTxns_perm h
  exact (hperm.pairwise_iff (fun hxy hyx => hxy hyx.symm)).mpr (removeDuplicates_pairwise _)

/-- C1 (witness): the dedup theorem applied to a concrete document. -/
theorem c1_dedup_witness :
    ([c1comTxn] : List Txn).Pairwise (fun a b => txnKey a ≠ txnKey b) :=
  c1_comerica_dedup.1 2024 c1comText [c1comTxn] (by decide)

def c2chaseText : Chars := ("ACCOUNT ACTIVITY\n02/05 FOO 10.00\n01/04 BAR 20.00").toList

def c2chaseTxnA : Txn :=
  ⟨("02/05/2024").toList, 1000, ("FOO").toList, [], ("02/05 FOO 10.00").toList⟩

def c2chaseTxnB : Txn :=
  ⟨("01/04/2024").toList, 2000, ("BAR").toList, [], ("01/04 BAR 20.00").toList⟩

/-- C2 (counterexample): the Chase parser emits transactions in document
order without sorting, so a document whose later-dated line comes first
yields a list that is not non-decreasing by parsed date. -/
theorem c2_chase_unsorted_counterexample :
    ChaseParser.extract_transactions c2chaseText = [c2chaseTxnA, c2chaseTxnB] ∧
    strptimeMDY c2chaseTxnA.date = some 20240205 ∧
    strptimeMDY c2chaseTxnB.date = some 20240104 ∧
    ¬ ([c2chaseTxnA, c2chaseTxnB] : List Txn).Sorted
        (dateLE (fun t => strptimeMDY t.date)) := by
  refine ⟨by decide, by decide, by decide, ?_⟩
  intro h
  have := (List.pairwise_cons.mp h).1 _ (List.mem_cons_self _ _)
  revert this
  decide

def c2comText : Chars :=
  ("Paper depositsthisstatementperiod Apr10 100.00 777 Apr9 50.00 888").toList

def c2comTxnA : Txn :=
  ⟨("Apr 9, 2024").toList, 5000, ("Paper Deposit Ref:888").toList, ("deposit").toList, []⟩

def c2comTxnB : Txn :=
  ⟨("Apr 10, 2024").toList, 10000, ("Paper Deposit Ref:777").toList, ("deposit").toList, []⟩

/-- C2 (amended): the Comerica and Prosperity parsers sort their result by
parsed chronological date, so every list they return is non-decreasing by
date key; the Chase and Wells Fargo parsers emit matches in document order
without sorting. -/
theorem c2_sorted_comerica_prosperity :
    (∀ (cy : Nat) (text : Chars) (l : List Txn),
        ComericaParser.extract_transactions cy text = some l →
        l.Sorted (dateLE comericaBDYkey)) ∧
    (∀ (text : Chars) (l : List Txn),
        ProsperityParser.extract_transactions text = some l →
        l.Sorted (dateLE prosperityMDYkey)) := by
  constructor
  · intro cy text l h
    unfold ComericaParser.extract_transactions at h
    exact sortTxns_sorted h
  · intro text l h
    unfold ProsperityParser.extract_transactions at h
    split at h
    · cases h
      exact List.sorted_nil
    · exact sortTxns_sorted h

/-- C2 (witness): the sortedness theorem applied to a concrete document whose
lines arrive in reverse date order. -/
theorem c2_sorted_witness :
    ([c2comTxnA, c2comTxnB] : List Txn).Sorted (dateLE comericaBDYkey) :=
  c2_sorted_comerica_prosperity.1 2024 c2comText [c2comTxnA, c2comTxnB] (by decide)

def c3zeroTxn : Txn := ⟨("01/01/2024").toList, 0, ("XYZ").toList, [], []⟩

/-- C3 (counterexample): a transaction with amount exactly zero, no type tag
and no category keyword is appended to no category list at all — in
particular not to the fees-and-services bucket — so the classification is
not total. -/
theorem c3_zero_dropped_counterexample :
    categorize_transactions [c3zeroTxn] = emptyCategories ∧
    (categorize_transactions [c3zeroTxn]).fees_services = [] ∧
    categorizeDrops c3zeroTxn = true := by
  refine ⟨by decide, by decide, by decide⟩

/-- C3 (amended): `categorize_transactions` is non-overlapping and total
except for its zero-amount fall-through: the multiset of the seven category
lists together equals the multiset of input transactions minus exactly those
with amount zero and neither a recognized type tag nor a keyword match
(which are silently dropped, without crashing). -/
theorem c3_categorize_partition (txns : List Txn) :
    (↑(categoriesAll (categorize_transactions txns)) : Multiset Txn) =
      ↑(txns.filter (fun t => !categorizeDrops t)) := by
  have hms := categorize_fold txns emptyCategories
  have h0 : (↑(categoriesAll emptyCategories) : Multiset Txn) = 0 := by
    simp [categoriesAll, emptyCategories]
  rw [h0, zero_add] at hms
  exact hms

def c4walmartLine : Chars := ("12/02/2024 WALMART #123 -45.67").toList

def c4walmartTxn : Txn :=
  ⟨("12/02/2024").toList, -4567, ("WALMART #123").toList, [], c4walmartLine⟩

/-- C4: every line accepted by the Prosperity line grammar yields an amount
forced non-positive in a debit-marked section and non-negative in a
credit-marked section, and the sample debit line keeps its value -45.67
(here -4567 cents) regardless of the printed sign. -/
theorem c4_sign_normalization :
    (∀ (kind : SecKind) (line : Chars) (t : Txn), prosperityLineTxn kind line = some t →
        (kind = SecKind.debit → t.amount ≤ 0) ∧ (kind = SecKind.deposit → 0 ≤ t.amount)) ∧
    prosperityLineTxn SecKind.debit c4walmartLine = some c4walmartTxn := by
  refine ⟨?_, by decide⟩
  intro kind line t h
  unfold prosperityLineTxn at h
  cases hp : prosLineParse line with
  | none => rw [hp] at h; cases h
  | some trip =>
    rw [hp] at h
    obtain ⟨dateStr, desc, v⟩ := trip
    dsimp only at h
    cases h
    cases kind with
    | deposit =>
      refine ⟨(fun hk => nomatch hk), fun _ => ?_⟩
      exact pyAbs_nonneg v
    | debit =>
      refine ⟨fun _ => ?_, (fun hk => nomatch hk)⟩
      have h2 := pyAbs_nonneg v
      dsimp only
      omega

/-- C4 (witness): the sign theorem applied to the sample debit line. -/
theorem c4_sign_witness :
    prosperityLineTxn SecKind.debit c4walmartLine = some c4walmartTxn ∧
    c4walmartTxn.amount ≤ 0 :=
  ⟨c4_sign_normalization.2,
   (c4_sign_normalization.1 SecKind.debit c4walmartLine c4walmartTxn (by decide)).1 rfl⟩

/-- C5: `extract_transactions_from_pdf` extracts with the first registered
parser whose detection predicate holds, trying them in declared order
(Prosperity, Chase, Wells Fargo), and returns the empty list — raising
nothing — when no predicate holds. -/
theorem c5_first_match_detection (text : Chars) :
    ((∀ p ∈ registeredParsers, p.detect text = false) →
        extract_transactions_from_pdf text = []) ∧
    (ProsperityBankParser.detect_format text = true →
        extract_transactions_from_pdf text = ProsperityBankParser.extract_transactions text) ∧
    (ProsperityBankParser.detect_format text = false →
      ChaseParser.detect_format text = true →
        extract_transactions_from_pdf text = ChaseParser.extract_transactions text) ∧
    (ProsperityBankParser.detect_format text = false →
      ChaseParser.detect_format text = false →
      WellsFargoParser.detect_format text = true →
        extract_transactions_from_pdf text = WellsFargoParser.extract_transactions text) := by
  refine ⟨?_, ?_, ?_, ?_⟩
  · intro hall
    have h1 := hall _ (by simp [registeredParsers] : (⟨ProsperityBankParser.detect_format,
      ProsperityBankParser.extract_transactions⟩ : FormatParser) ∈ registeredParsers)
    have h2 := hall _ (by simp [registeredParsers] : (⟨ChaseParser.detect_format,
      ChaseParser.extract_transactions⟩ : FormatParser) ∈ registeredParsers)
    have h3 := hall _ (by simp [registeredParsers] : (⟨WellsFargoParser.detect_format,
      WellsFargoParser.extract_transactions⟩ : FormatParser) ∈ registeredParsers)
    simp only [extract_transactions_from_pdf, registeredParsers, List.find?] at *
    rw [h1, h2, h3]
  · intro h1
    simp only [extract_transactions_from_pdf, registeredParsers, List.find?]
    rw [h1]
  · intro h1 h2
    simp only [extract_transactions_from_pdf, registeredParsers, List.find?]
    rw [h1, h2]
  · intro h1 h2 h3
    simp only [extract_transactions_from_pdf, registeredParsers, List.find?]
    rw [h1, h2, h3]

def c5noFormatText : Chars := ("hello world").toList

/-- C5 (witness): a document matching no registered format yields the empty
transaction list. -/
theorem c5_detection_witness : extract_transactions_from_pdf c5noFormatText = [] :=
  (c5_first_match_detection c5noFormatText).1 (by
    intro p hp
    simp [registeredParsers] at hp
    rcases hp with rfl | rfl | rfl <;> decide)

/-- C6: the sum of amounts over the full transaction list equals the summed
amounts of the seven category lists of `categorize_transactions` and the sum
of `total_amount` over the groups of both merchant-grouping functions —
grouping and classifying drop no amount and count none twice (zero-amount
unclassified transactions are omitted from the category view but carry
amount zero). -/
theorem c6_conservation (txns : List Txn) :
    categoriesSum (categorize_transactions txns) = sumAmounts txns ∧
    groupsSum (group_transactions_by_merchant txns) = sumAmounts txns ∧
    groupsSum (group_similar_transactions txns) = sumAmounts txns :=
  ⟨categoriesSum_eq txns, group_merchant_sum txns, group_similar_sum txns⟩

def c7prosText : Chars :=
  ("DEPOSITS/OTHER CREDITS Date Description Amount\n01/02/2024 FOO 1.00\nOTHER DEBITS Date Description Amount\n01/03/2024 BAR 2.00\nDEPOSITS/OTHER CREDITS Date Description Amount\n01/04/2024 BAZ 3.00").toList

def c7prosTxnFOO : Txn :=
  ⟨("01/02/2024").toList, 100, ("FOO").toList, [], ("01/02/2024 FOO 1.00").toList⟩

def c7prosTxnBAR : Txn :=
  ⟨("01/03/2024").toList, -200, ("BAR").toList, [], ("01/03/2024 BAR 2.00").toList⟩

def c7prosTxnBAZ : Txn :=
  ⟨("01/04/2024").toList, 300, ("BAZ").toList, [], ("01/04/2024 BAZ 3.00").toList⟩

def c7comText : Chars :=
  ("Paper depositsthisstatementperiod Apr10 100.00 111 Transfer from x Paper depositsthisstatementperiod Apr11 200.00 222").toList

def c7comTxn : Txn :=
  ⟨("Apr 10, 2024").toList, 10000, ("Paper Deposit Ref:111").toList, ("deposit").toList, []⟩

/-- C7 (counterexample): the Comerica section extraction uses `re.search`,
so when its deposits header occurs twice only the first occurrence
contributes — the second section's transaction (amount 200.00) is missing
from the result. -/
theorem c7_comerica_first_only_counterexample :
    ComericaParser.extract_transactions 2024 c7comText = some [c7comTxn] ∧
    containsSub (c7comText.drop litComDepHdr.length) litComDepHdr = true ∧
    c7comTxn.amount = 10000 := by
  refine ⟨by decide, by decide, by decide⟩

/-- C7 (amended): a header with zero occurrences contributes an empty section
for both parsers; the Prosperity parser's `finditer`-based sections collect
every header occurrence in document order (a concrete document with two
deposits sections contributes both); the Comerica parser's `re.search`-based
sections keep only the first occurrence of each header. -/
theorem c7_section_occurrences :
    (∀ (y : Nat) (text : Chars), containsSub text litComDepHdr = false →
        comericaDeposits y text = []) ∧
    (∀ text : Chars, containsSub text litDepositsHdr = false →
        prosSections litDepositsHdr prosperityDepositStops text = []) ∧
    ProsperityParser.extract_transactions c7prosText =
      some [c7prosTxnFOO, c7prosTxnBAR, c7prosTxnBAZ] := by
  refine ⟨?_, ?_, by decide⟩
  · intro y text hc
    have hs : searchSection litComDepHdr [litTransferFrom, litElectronicWithdrawalsSp] text
        = none := by
      unfold searchSection
      cases hf : findLit litComDepHdr text with
      | none => rfl
      | some i =>
        exfalso
        unfold containsSub at hc
        rw [hf] at hc
        cases hc
    unfold comericaDeposits
    rw [hs]
  · intro text hc
    have hscan : scan1 (sectionHeaderM litDepositsHdr) text = none := by
      apply scan1_eq_none
      intro s₂ hsuf
      cases hm : sectionHeaderM litDepositsHdr s₂ with
      | none => rfl
      | some r =>
        exfalso
        have hst := sectionHeaderM_starts hm
        have hcon := containsSub_of_suffix_starts hsuf hst
        rw [hcon] at hc
        cases hc
    unfold prosSections prosSectionsAux
    rw [hscan]

/-- C7 (witness): the zero-occurrence case applied to a concrete document
with no Comerica deposits header. -/
theorem c7_sections_witness : comericaDeposits 2024 (("xyz").toList) = [] :=
  c7_section_occurrences.1 2024 (("xyz").toList) (by decide)

def c8chaseText : Chars :=
  ("January 1, 2023 to January 31, 2023\nACCOUNT ACTIVITY\n01/15 FOO 10.00").toList

def c8chaseTxn : Txn :=
  ⟨("01/15/2024").toList, 1000, ("FOO").toList, [], ("01/15 FOO 10.00").toList⟩

/-- C8 (counterexample): the Chase parser attaches the literal year 2024 to
every date even when the document carries a statement-period header naming
year 2023, so the attached year is neither the inferred statement year nor a
current-year fallback. -/
theorem c8_chase_hardcoded_counterexample :
    ChaseParser.extract_transactions c8chaseText = [c8chaseTxn] ∧
    c8chaseTxn.date = ("01/15/2024").toList ∧
    comericaPeriodYear c8chaseText = some 2023 ∧
    containsSub c8chaseTxn.date (natChars 2023) = false := by
  refine ⟨by decide, by decide, by decide, by decide⟩

/-- C8 (amended): the Comerica parser attaches the statement year — inferred
from the period header, else the current calendar year — to every
transaction date (the date ends in ", year"); the Chase and Wells Fargo
parsers always attach the literal year 2024 regardless of the text. -/
theorem c8_year_attachment :
    (∀ (cy : Nat) (text : Chars) (l : List Txn),
        ComericaParser.extract_transactions cy text = some l → ∀ t ∈ l,
        endsWithL (litCommaSp ++ natChars (comericaStatementYear cy text)) t.date = true) ∧
    (∀ (text : Chars) (t : Txn), t ∈ ChaseParser.extract_transactions text →
        endsWithL lit2024sl t.date = true) ∧
    (∀ (text : Chars) (t : Txn), t ∈ WellsFargoParser.extract_transactions text →
        endsWithL lit2024sl t.date = true) := by
  refine ⟨?_, fun text t h => chase_extract_date h, fun text t h => wellsFargo_extract_date h⟩
  intro cy text l h t ht
  rcases comerica_extract_mem h ht with h4 | h4 | h4 | h4
  · obtain ⟨mon, day, hd⟩ := comericaDeposits_date h4
    rw [hd]; exact comericaDateStr_endsWith mon day _
  · obtain ⟨mon, day, hd⟩ := comericaTransfers_date h4
    rw [hd]; exact comericaDateStr_endsWith mon day _
  · obtain ⟨mon, day, hd⟩ := (comericaWithdrawals_shape h4).2.1
    rw [hd]; exact comericaDateStr_endsWith mon day _
  · obtain ⟨mon, day, hd⟩ := comericaFees_date h4
    rw [hd]; exact comericaDateStr_endsWith mon day _

def c8wText : Chars := ("Paper depositsthisstatementperiod Apr10 100.00 555").toList

def c8wTxn : Txn :=
  ⟨("Apr 10, 2026").toList, 10000, ("Paper Deposit Ref:555").toList, ("deposit").toList, []⟩

/-- C8 (witness): the year theorem applied to a concrete document with no
period header and current year 2026: the extracted date ends in ", 2026". -/
theorem c8_year_witness :
    endsWithL (litCommaSp ++ natChars (comericaStatementYear 2026 c8wText)) c8wTxn.date
      = true :=
  c8_year_attachment.1 2026 c8wText [c8wTxn] (by decide) c8wTxn (by decide)

def c9govTxn : Txn := ⟨[], 0, ("Tx.gov *PAY").toList, [], []⟩

/-- C9 (counterexample): a description carrying a `.gov` marker and a `*`
delimiter is grouped by the `*` rule, not as "Government Services" — the
government and bank-fee markers are tested after the `*` rule, not before
it. -/
theorem c9_gov_after_star_counterexample :
    merchantKey c9govTxn = ("Tx.gov").toList ∧
    containsSub c9govTxn.description ((".gov").toList) = true ∧
    ("Tx.gov").toList ≠ ("Government Services").toList := by
  refine ⟨by decide, by decide, by decide⟩

/-- C9 (amended): the merchant-key chain is first-match-wins with the Uber,
QuikTrip and Discount Tire families before the `*` rule and the ATM,
vehicle-registration, government and bank-fee markers after it; when no
earlier family matches and `*` occurs, the key is the text before `*`,
trimmed (`"LYFT *1RIDE12-29"` yields `"LYFT"`); an empty description is its
own key. -/
theorem c9_merchant_key_chain :
    (∀ d : Chars, containsSub d (("Uber").toList) = false →
        containsSub d (("UberTrip").toList) = false →
        startsWithL (("Qt").toList) d = false →
        startsWithL (("Discount").toList) d = false →
        containsSub d ['*'] = true →
        merchantKeyOfDesc d = stripL (d.takeWhile (· ≠ '*'))) ∧
    merchantKeyOfDesc (("LYFT *1RIDE12-29").toList) = ("LYFT").toList ∧
    merchantKeyOfDesc [] = [] := by
  refine ⟨?_, by decide, by decide⟩
  intro d h1 h2 h3 h4 h5
  unfold merchantKeyOfDesc
  rw [h1, h2, h3, h4, h5]
  simp

/-- C9 (witness): the `*` rule applied to a concrete description that matches
no special-cased family. -/
theorem c9_merchant_witness :
    merchantKeyOfDesc (("DOORDASH *ORDER77").toList) =
      stripL ((("DOORDASH *ORDER77").toList).takeWhile (· ≠ '*')) :=
  c9_merchant_key_chain.1 (("DOORDASH *ORDER77").toList)
    (by decide) (by decide) (by decide) (by decide) (by decide)

def c10comText : Chars :=
  ("Electronicwithdrawalsthisstatementperiod Apr10 -50.00 Payment ServiceCharge").toList

def c10comTxn : Txn :=
  ⟨("Apr 10, 2024").toList, -5000, ("Payment Ref:ServiceCharge").toList,
   ("other_withdrawal").toList, []⟩

/-- C10 (counterexample): a withdrawals-section line whose reference token is
the word `ServiceCharge` passes the activity-based fee skip, so the emitted
transaction's description does contain `ServiceCharge` — the claim's
"description free of fee markers" fails even though the type tag is
non-fee. -/
theorem c10_ref_token_counterexample :
    ComericaParser.extract_transactions 2024 c10comText = some [c10comTxn] ∧
    containsSub c10comTxn.description litServiceCharge = true ∧
    c10comTxn.typ = ("other_withdrawal").toList := by
  refine ⟨by decide, by decide, by decide⟩

/-- C10 (amended): every transaction emitted from the Comerica withdrawals
section carries a non-fee withdrawal type tag and an activity part free of
`Fee-` and `ServiceCharge` (lines whose activity contains either marker are
skipped); only its trailing reference token may still contain a marker. -/
theorem c10_withdrawal_fee_skip :
    ∀ (y : Nat) (text : Chars) (t : Txn), t ∈ comericaWithdrawals y text →
      t.typ ∈ comericaWithdrawalTypes ∧
      ∃ act ref, t.description = act ++ litRefSep ++ ref ∧
        containsSub act litFeeDash = false ∧ containsSub act litServiceCharge = false := by
  intro y text t h
  obtain ⟨h1, _, h3⟩ := comericaWithdrawals_shape h
  exact ⟨h1, h3⟩

def c10wText : Chars :=
  ("Electronicwithdrawalsthisstatementperiod Apr10 -50.00 Zelle07-15Jpmorgan X99").toList

def c10wTxn : Txn :=
  ⟨("Apr 10, 2024").toList, -5000, ("Zelle07-15Jpmorgan Ref:X99").toList,
   ("zelle").toList, []⟩

/-- C10 (witness): the withdrawal-shape theorem applied to a concrete
withdrawals section containing a Zelle line. -/
theorem c10_withdrawal_witness :
    c10wTxn.typ ∈ comericaWithdrawalTypes ∧
    ∃ act ref, c10wTxn.description = act ++ litRefSep ++ ref ∧
      containsSub act litFeeDash = false ∧ containsSub act litServiceCharge = false :=
  c10_withdrawal_fee_skip 2024 c10wText c10wTxn (by decide)
